import Mathlib

/-!
Verification development for the `s1denoise` thermal-noise removal core
(`src/s1denoise/sentinel1image.py`).  The Python code is shallowly embedded:

* raster cell values are `Option ℚ`, with `none` standing for IEEE NaN (and
  other non-finite values); arithmetic propagates `none` exactly as NumPy
  propagates NaN;
* NumPy float arrays become `List ℚ` / `List (Option ℚ)`;
* the scipy interpolators and the nonlinear optimizer are kept as explicit
  function parameters, since their numeric behaviour is external to the core;
  every structural decision of the source (initialisation, masks, branch
  conditions, index bookkeeping) is embedded faithfully.
-/

/-- Cell of a full-resolution raster: `none` models IEEE NaN / non-finite. -/
abbrev RVal := Option ℚ

/-- NaN-propagating multiplication of a raster cell by a finite scalar. -/
def rmulq (a : RVal) (c : ℚ) : RVal := a.map (· * c)

/-- NaN-propagating addition of a finite scalar to a raster cell. -/
def raddq (a : RVal) (c : ℚ) : RVal := a.map (· + c)

/-- NaN-propagating subtraction of raster cells. -/
def rsub (a b : RVal) : RVal :=
  match a, b with
  | some x, some y => some (x - y)
  | _, _ => none

/-- NaN-propagating division; a zero denominator yields a non-finite value
(NumPy `inf`/`nan`), modelled as `none`. -/
def rdiv (a b : RVal) : RVal :=
  match a, b with
  | some x, some y => if y = 0 then none else some (x / y)
  | _, _ => none

/-- NumPy comparison `x <= 0`: `False` on NaN.  Embeds the mask
`sigma0 <= 0` of `Sentinel1Image.remove_thermal_noise`. -/
def rle_zero (a : RVal) : Bool :=
  match a with
  | some x => decide (x ≤ 0)
  | none => false

/-- One swath-bounds block `(firstAzimuthLine, lastAzimuthLine,
firstRangeSample, lastRangeSample)` from the annotation `swathMerge` records
(`Sentinel1Image.swath_bounds`). -/
structure Block where
  fal : ℕ
  lal : ℕ
  frs : ℕ
  lrs : ℕ
deriving DecidableEq, Repr

/-- Membership of a raster position in a swath-bounds block: the source
writes into `z_fs[fal:lal+1, frs:lrs+1]`. -/
def inBlock (b : Block) (l p : ℕ) : Prop :=
  b.fal ≤ l ∧ l ≤ b.lal ∧ b.frs ≤ p ∧ p ≤ b.lrs

instance (b : Block) (l p : ℕ) : Decidable (inBlock b l p) := by
  unfold inBlock; infer_instance

/-- A full-resolution raster as a cell function. -/
abbrev Raster := ℕ → ℕ → RVal

/-- Embeds `Sentinel1Image.interp_nrv_full_size`: the output raster is
initialised to NaN (`np.zeros(shape) + np.nan`) and the per-block bivariate
spline values (abstracted as `interpVal`, possibly NaN) are written only
inside each block, later blocks overwriting earlier ones; `power` embeds the
optional `z_arr_fs**power` step. -/
def interp_nrv_full_size (blocks : List Block)
    (interpVal : Block → ℕ → ℕ → RVal) (power : ℕ) : Raster :=
  fun l p =>
    blocks.foldl
      (fun acc b =>
        if inBlock b l p then
          (if power ≠ 1 then (interpVal b l p).map (· ^ power) else interpVal b l p)
        else acc)
      none

/-- Embeds `Sentinel1Image.get_corrected_nesz_full_size`: inside every block
of each swath the NESZ is multiplied by the noise-scaling coefficient and the
power-balancing offset is added; cells outside every block are untouched.
`nspb` gives the `(ns, pb)` pair of the block's swath. -/
def get_corrected_nesz_full_size (blocks : List Block)
    (nspb : Block → ℚ × ℚ) (nesz : Raster) : Raster :=
  fun l p =>
    blocks.foldl
      (fun acc b =>
        if inBlock b l p then raddq (rmulq acc (nspb b).1) (nspb b).2 else acc)
      (nesz l p)

/-- Embeds `Sentinel1Image.get_raw_sigma0_full_size`:
`sigma0_fs = dn**2 / interp_nrv_full_size(sigmaNought, ..., power=2)` and
`sigma0_fs[dn <= min_dn] = nan`.  `dn` is the digital-number image (finite),
`calInterp` the per-block sigma-nought spline values. -/
def get_raw_sigma0_full_size (dn : ℕ → ℕ → ℚ) (blocks : List Block)
    (calInterp : Block → ℕ → ℕ → RVal) (min_dn : ℚ) : Raster :=
  fun l p =>
    if dn l p ≤ min_dn then none
    else rdiv (some (dn l p ^ 2)) (interp_nrv_full_size blocks calInterp 2 l p)

/-- The three noise-vector sources selected by the `algorithm` tag in
`Sentinel1Image.get_nesz_full_size`. -/
inductive NoisePath
  | esa
  | shifted
  | totalGain
deriving DecidableEq, Repr

/-- Embeds the noise-vector dispatch of `Sentinel1Image.get_nesz_full_size`
(lines 994-1001): raw ESA vectors by default, `get_shifted_noise_vectors`
for `'NERSC'`, `get_noise_tg_vectors` for `'NERSC_TG'`.  `ipf` is the stored
`self.IPFversion`; the dispatch of the source reads only `algorithm`. -/
def get_nesz_full_size_path (ipf : ℚ) (algorithm : String) : NoisePath :=
  if algorithm = "NERSC" then NoisePath.shifted
  else if algorithm = "NERSC_TG" then NoisePath.totalGain
  else NoisePath.esa

/-- Embeds the IPF-version check of `Sentinel1Image.__init__`
(lines 162-168): a printed message only, the constructor neither raises nor
records a fallback. -/
def ipf_version_message (ipf : ℚ) : Option String :=
  if ipf < 2.43 then
    some "ERROR: IPF version of input image is lower than 2.43! Denoising vectors in annotation files are not qualified. Only TG-based denoising can be performed"
  else if ipf < 2.53 then
    some "WARNING: IPF version of input image is lower than 2.53! ESA default noise correction result might be wrong."
  else none

/-- Embeds the raster part of `Sentinel1Image.get_nesz_full_size`: the
chosen noise vectors are calibrated, lifted to full size over the swath
blocks (`neszInterp`, possibly NaN inside a block), multiplied cell-wise by
the scalloping raster (`scall`, finite), and for `'NERSC'` only the
scaling/offset correction is applied. -/
def get_nesz_full_size (blocks : List Block)
    (neszInterp : NoisePath → Block → ℕ → ℕ → RVal)
    (scall : ℕ → ℕ → ℚ) (nspb : Block → ℚ × ℚ)
    (ipf : ℚ) (algorithm : String) : Raster :=
  let path := get_nesz_full_size_path ipf algorithm
  let nesz_fs : Raster :=
    fun l p => rmulq (interp_nrv_full_size blocks (neszInterp path) 1 l p) (scall l p)
  if algorithm = "NERSC" then get_corrected_nesz_full_size blocks nspb nesz_fs
  else nesz_fs

/-- Modelled from the spec: `fill_gaps` (imported from the missing module
`s1denoise/utils.py`) replaces only the masked pixels by a distance-weighted
fill from valid neighbours (kept abstract as `fill`); unmasked pixels are
returned unchanged. -/
def fill_gaps (a : Raster) (mask : ℕ → ℕ → Bool) (fill : ℕ → ℕ → RVal) : Raster :=
  fun l p => if mask l p then fill l p else a l p

/-- Embeds `Sentinel1Image.remove_thermal_noise`: full-size NESZ, full-size
calibrated sigma0, subtraction, and the optional gap fill of the
non-positive pixels. -/
def remove_thermal_noise (dn : ℕ → ℕ → ℚ) (blocks : List Block)
    (calInterp : Block → ℕ → ℕ → RVal)
    (neszInterp : NoisePath → Block → ℕ → ℕ → RVal)
    (scall : ℕ → ℕ → ℚ) (nspb : Block → ℚ × ℚ)
    (fill : ℕ → ℕ → RVal)
    (ipf : ℚ) (algorithm : String) (remove_negative : Bool) (min_dn : ℚ) : Raster :=
  let nesz_fs := get_nesz_full_size blocks neszInterp scall nspb ipf algorithm
  let sigma0 : Raster :=
    fun l p => rsub (get_raw_sigma0_full_size dn blocks calInterp min_dn l p) (nesz_fs l p)
  if remove_negative then fill_gaps sigma0 (fun l p => rle_zero (sigma0 l p)) fill
  else sigma0

lemma interp_nrv_outside (blocks : List Block)
    (interpVal : Block → ℕ → ℕ → RVal) (power : ℕ) (l p : ℕ)
    (h : ∀ b ∈ blocks, ¬ inBlock b l p) :
    interp_nrv_full_size blocks interpVal power l p = none := by
  unfold interp_nrv_full_size
  induction blocks with
  | nil => rfl
  | cons b bs ih =>
      have hb : ¬ inBlock b l p := h b (List.mem_cons_self b bs)
      simp only [List.foldl_cons, if_neg hb]
      exact ih (fun b' hb' => h b' (List.mem_cons_of_mem b hb'))

lemma corrected_nesz_outside (blocks : List Block) (nspb : Block → ℚ × ℚ)
    (nesz : Raster) (l p : ℕ) (h : ∀ b ∈ blocks, ¬ inBlock b l p) :
    get_corrected_nesz_full_size blocks nspb nesz l p = nesz l p := by
  unfold get_corrected_nesz_full_size
  induction blocks with
  | nil => rfl
  | cons b bs ih =>
      have hb : ¬ inBlock b l p := h b (List.mem_cons_self b bs)
      simp only [List.foldl_cons, if_neg hb]
      exact ih (fun b' hb' => h b' (List.mem_cons_of_mem b hb'))

lemma raw_sigma0_outside (dn : ℕ → ℕ → ℚ) (blocks : List Block)
    (calInterp : Block → ℕ → ℕ → RVal) (min_dn : ℚ) (l p : ℕ)
    (h : ∀ b ∈ blocks, ¬ inBlock b l p) :
    get_raw_sigma0_full_size dn blocks calInterp min_dn l p = none := by
  unfold get_raw_sigma0_full_size
  rw [interp_nrv_outside blocks calInterp 2 l p h]
  by_cases hdn : dn l p ≤ min_dn <;> simp [hdn, rdiv]

/-- C2: for every position `(l, p)` outside every swath-bounds block, the
full-resolution sigma0 raster is NaN and the raster returned by
`remove_thermal_noise` is NaN, for either value of `remove_negative`, any
algorithm, and any behaviour of the interpolators, scalloping, coefficients
and gap fill. -/
theorem remove_thermal_noise_nan_outside_blocks
    (dn : ℕ → ℕ → ℚ) (blocks : List Block)
    (calInterp : Block → ℕ → ℕ → RVal)
    (neszInterp : NoisePath → Block → ℕ → ℕ → RVal)
    (scall : ℕ → ℕ → ℚ) (nspb : Block → ℚ × ℚ) (fill : ℕ → ℕ → RVal)
    (ipf : ℚ) (algorithm : String) (remove_negative : Bool) (min_dn : ℚ)
    (l p : ℕ) (h : ∀ b ∈ blocks, ¬ inBlock b l p) :
    get_raw_sigma0_full_size dn blocks calInterp min_dn l p = none ∧
    remove_thermal_noise dn blocks calInterp neszInterp scall nspb fill
      ipf algorithm remove_negative min_dn l p = none := by
  have hs0 := raw_sigma0_outside dn blocks calInterp min_dn l p h
  refine ⟨hs0, ?_⟩
  unfold remove_thermal_noise
  have hdiff :
      rsub (get_raw_sigma0_full_size dn blocks calInterp min_dn l p)
        (get_nesz_full_size blocks neszInterp scall nspb ipf algorithm l p) = none := by
    rw [hs0]; rfl
  cases remove_negative with
  | false => simpa [remove_thermal_noise] using hdiff
  | true => simp [remove_thermal_noise, fill_gaps, hdiff, rle_zero]

/-- Concrete instance data for the C2 witness. -/
def c2Blocks : List Block := [⟨0, 10, 0, 100⟩, ⟨0, 10, 101, 200⟩]

theorem remove_thermal_noise_nan_outside_blocks_witness :
    (∀ b ∈ c2Blocks, ¬ inBlock b 20 50) ∧
    (get_raw_sigma0_full_size (fun _ _ => 7) c2Blocks (fun _ _ _ => some 1) 0 20 50 = none ∧
     remove_thermal_noise (fun _ _ => 7) c2Blocks (fun _ _ _ => some 1)
       (fun _ _ _ _ => some 1) (fun _ _ => 1) (fun _ => (1, 0)) (fun _ _ => some 0)
       2.9 "NERSC" true 0 20 50 = none) :=
  ⟨by decide,
   remove_thermal_noise_nan_outside_blocks (fun _ _ => 7) c2Blocks (fun _ _ _ => some 1)
     (fun _ _ _ _ => some 1) (fun _ _ => 1) (fun _ => (1, 0)) (fun _ _ => some 0)
     2.9 "NERSC" true 0 20 50 (by decide)⟩

/-- C1 counterexample: for an IPF 2.4 product with algorithm `'NERSC'`
requested, `get_nesz_full_size` takes the shift-corrected path, not the
total-gain path — no fallback exists in the code. -/
theorem nersc_no_tg_fallback_below_243 :
    get_nesz_full_size_path 2.4 "NERSC" = NoisePath.shifted ∧
    NoisePath.shifted ≠ NoisePath.totalGain ∧ (2.4 : ℚ) < 2.43 := by
  refine ⟨rfl, by decide, by norm_num⟩

/-- C1 amended: the `algorithm` tag alone selects the noise path for every
IPF version — `'NERSC'` always selects the shift-corrected path and
`'NERSC_TG'` the total-gain path; for IPF below 2.43 the constructor only
prints the error message announcing that only TG-based denoising can be
performed, without changing the path that a later `'NERSC'` request takes. -/
theorem nersc_path_ignores_ipf (ipf : ℚ) :
    get_nesz_full_size_path ipf "NERSC" = NoisePath.shifted ∧
    get_nesz_full_size_path ipf "NERSC_TG" = NoisePath.totalGain ∧
    (ipf < 2.43 →
      ipf_version_message ipf =
        some "ERROR: IPF version of input image is lower than 2.43! Denoising vectors in annotation files are not qualified. Only TG-based denoising can be performed") := by
  refine ⟨rfl, rfl, fun h => ?_⟩
  unfold ipf_version_message
  rw [if_pos h]

theorem nersc_path_ignores_ipf_witness :
    (2.4 : ℚ) < 2.43 ∧
    (get_nesz_full_size_path 2.4 "NERSC" = NoisePath.shifted ∧
     get_nesz_full_size_path 2.4 "NERSC_TG" = NoisePath.totalGain ∧
     ipf_version_message 2.4 =
       some "ERROR: IPF version of input image is lower than 2.43! Denoising vectors in annotation files are not qualified. Only TG-based denoising can be performed") :=
  ⟨by norm_num,
   ⟨(nersc_path_ignores_ipf 2.4).1, (nersc_path_ignores_ipf 2.4).2.1,
    (nersc_path_ignores_ipf 2.4).2.2 (by norm_num)⟩⟩

/-- Embeds the burst-count search of `Sentinel1Image.focusedBurstLengthInTime`
(lines 1292-1294): the Python list comprehension
`[p for p in range(1, numberOfInputLines//nominalLinesPerBurst+1)
   if numberOfInputLines % p == 0]`. -/
def burstDivisors (n npb : ℕ) : List ℕ :=
  (List.range (n / npb + 1)).filter (fun k => decide (1 ≤ k) && decide (n % k = 0))

/-- Embeds `Sentinel1Image.focusedBurstLengthInTime` for one swath:
`numberOfBursts = max(burstDivisors)` (Python `max` of an empty sequence
raises its own ValueError, modelled as the first error), then the guarded
division producing `numberOfInputLines / numberOfBursts * azimuthTimeIntervalInSLC`,
with the degenerate error raised when the guard fails. -/
def focusedBurstLengthInTime (n npb : ℕ) (azimuthTimeIntervalInSLC : ℚ) : Except String ℚ :=
  match (burstDivisors n npb).max? with
  | none => Except.error "max() arg is an empty sequence"
  | some numberOfBursts =>
      if n % numberOfBursts = 0 then
        Except.ok ((n : ℚ) / (numberOfBursts : ℚ) * azimuthTimeIntervalInSLC)
      else Except.error "number of bursts cannot be determined."

lemma mem_burstDivisors (n npb k : ℕ) :
    k ∈ burstDivisors n npb ↔ 1 ≤ k ∧ k ≤ n / npb ∧ n % k = 0 := by
  unfold burstDivisors
  simp only [List.mem_filter, List.mem_range, Bool.and_eq_true, decide_eq_true_eq]
  omega

/-- C3 counterexample: `numberOfInputLines = 2003` is prime and exceeds the
IW nominal 1450, yet the burst count resolves to 1 and the computation
succeeds instead of raising the numeric-degenerate error. -/
theorem focusedBurstLength_prime_counterexample :
    Nat.Prime 2003 ∧ 1450 < 2003 ∧
    focusedBurstLengthInTime 2003 1450 1 = Except.ok 2003 := by
  refine ⟨by norm_num, by norm_num, ?_⟩
  have hd : burstDivisors 2003 1450 = [1] := by decide
  unfold focusedBurstLengthInTime
  rw [hd]
  norm_num

/-- C3 amended: `numberOfBursts` is the largest divisor of
`numberOfInputLines` not exceeding `numberOfInputLines / nominalLinesPerBurst`;
since 1 always qualifies once `nominalLinesPerBurst ≤ numberOfInputLines`,
the computation then succeeds and the branch raising
`'number of bursts cannot be determined.'` is unreachable for every input;
for `numberOfInputLines` prime and above the nominal value the burst count
is 1 and the burst length is the whole input; when no divisor exists
(`numberOfInputLines < nominalLinesPerBurst`) the raised error is Python's
`max()`-of-empty-sequence ValueError, not the degenerate one. -/
theorem focusedBurstLength_behaviour (n npb : ℕ) (q : ℚ) (hnpb : 0 < npb) :
    (npb ≤ n →
      ∃ nb, (burstDivisors n npb).max? = some nb ∧ nb ∣ n ∧ 1 ≤ nb ∧ nb ≤ n / npb ∧
        (∀ k, k ∣ n → k ≤ n / npb → k ≤ nb) ∧
        focusedBurstLengthInTime n npb q = Except.ok ((n : ℚ) / (nb : ℚ) * q)) ∧
    (n < npb →
      focusedBurstLengthInTime n npb q = Except.error "max() arg is an empty sequence") ∧
    (focusedBurstLengthInTime n npb q ≠ Except.error "number of bursts cannot be determined.") ∧
    (Nat.Prime n → 1 < npb → npb < n →
      focusedBurstLengthInTime n npb q = Except.ok ((n : ℚ) * q)) := by
  have hub : ∀ {nb : ℕ}, (burstDivisors n npb).max? = some nb →
      ∀ b ∈ burstDivisors n npb, b ≤ nb := by
    intro nb h
    exact (List.max?_le_iff (fun _ _ _ => Nat.max_le) h).1 (Nat.le_refl nb)
  have hmem : ∀ {nb : ℕ}, (burstDivisors n npb).max? = some nb →
      nb ∈ burstDivisors n npb := fun h => List.max?_mem (fun _ _ => max_choice _ _) h
  have hmax : npb ≤ n → ∃ nb, (burstDivisors n npb).max? = some nb := by
    intro hle
    have h1 : (1 : ℕ) ∈ burstDivisors n npb := by
      rw [mem_burstDivisors]
      exact ⟨le_refl 1, (Nat.one_le_div_iff hnpb).mpr hle, Nat.mod_one n⟩
    cases h : (burstDivisors n npb).max? with
    | none =>
        rw [List.max?_eq_none_iff] at h
        rw [h] at h1
        exact absurd h1 (List.not_mem_nil 1)
    | some nb => exact ⟨nb, rfl⟩
  refine ⟨?_, ?_, ?_, ?_⟩
  · intro hle
    obtain ⟨nb, hnb⟩ := hmax hle
    have hin := (mem_burstDivisors n npb nb).mp (hmem hnb)
    refine ⟨nb, hnb, Nat.dvd_of_mod_eq_zero hin.2.2, hin.1, hin.2.1, ?_, ?_⟩
    · intro k hk hkle
      have hk1 : 1 ≤ k := by
        rcases Nat.eq_zero_or_pos k with h0 | h1
        · subst h0
          have : n = 0 := Nat.eq_zero_of_zero_dvd hk
          omega
        · exact h1
      exact hub hnb k ((mem_burstDivisors n npb k).mpr
        ⟨hk1, hkle, Nat.eq_zero_of_dvd_of_lt hk |> fun _ => Nat.mod_eq_zero_of_dvd hk⟩)
    · unfold focusedBurstLengthInTime
      rw [hnb]
      simp [hin.2.2]
  · intro hlt
    have hd : burstDivisors n npb = [] := by
      unfold burstDivisors
      rw [Nat.div_eq_of_lt hlt]
      rfl
    unfold focusedBurstLengthInTime
    rw [hd]
    simp
  · unfold focusedBurstLengthInTime
    cases h : (burstDivisors n npb).max? with
    | none => simp
    | some nb =>
        have hin := (mem_burstDivisors n npb nb).mp (hmem h)
        simp [hin.2.2]
  · intro hp hnpb1 hlt
    obtain ⟨nb, hnb⟩ := hmax (Nat.le_of_lt hlt)
    have hin := (mem_burstDivisors n npb nb).mp (hmem hnb)
    have hnb1 : nb = 1 := by
      rcases (Nat.Prime.eq_one_or_self_of_dvd hp nb (Nat.dvd_of_mod_eq_zero hin.2.2)) with h1 | hn
      · exact h1
      · exfalso
        have : n / npb < n := Nat.div_lt_self (by omega) hnpb1
        omega
    unfold focusedBurstLengthInTime
    rw [hnb, hnb1]
    simp [Nat.mod_one]

theorem focusedBurstLength_behaviour_witness :
    0 < 1450 ∧ Nat.Prime 2003 ∧ 1 < 1450 ∧ 1450 < 2003 ∧
    focusedBurstLengthInTime 2003 1450 1 = Except.ok 2003 :=
  ⟨by norm_num, by norm_num, by norm_num, by norm_num,
   by simpa using
     (focusedBurstLength_behaviour 2003 1450 1 (by norm_num)).2.2.2
       (by norm_num) (by norm_num) (by norm_num)⟩

/-- The fields of `Sentinel1Image` that are set in `__init__` from the
product filename and manifest; the spec's Product entity. -/
structure ProductState where
  IPFversion : ℚ
  obsMode : String
  platform : String
  crosspol : String
deriving DecidableEq, Repr

/-- Embeds the object-state effect of `Sentinel1Image.remove_texture_noise`
(lines 1195-1196): `if self.IPFversion == 3.2: self.IPFversion = 3.1` is an
ordinary attribute assignment executed before the NESZ computation, so it
persists after the call returns.  The second component is the
`self.IPFversion` value that `get_nesz_full_size` and
`import_denoisingCoefficients` subsequently read inside the call. -/
def remove_texture_noise_state (s : ProductState) : ProductState × ℚ :=
  let s1 := if s.IPFversion = 3.2 then { s with IPFversion := 3.1 } else s
  (s1, s1.IPFversion)

/-- Instance data for the C9 counterexample: an IPF 3.2 product. -/
def c9State : ProductState := ⟨3.2, "EW", "S1A", "HV"⟩

/-- C9 counterexample: calling `remove_texture_noise` on an IPF 3.2 product
leaves the object's stored IPF version at 3.1, not at its original 3.2 —
the Product is not immutable and a later operation observes 3.1. -/
theorem remove_texture_noise_mutates_ipf :
    c9State.IPFversion = 3.2 ∧
    (remove_texture_noise_state c9State).1.IPFversion = 3.1 ∧
    (3.1 : ℚ) ≠ 3.2 := by
  refine ⟨rfl, ?_, by norm_num⟩
  simp [remove_texture_noise_state, c9State]

/-- C9 amended: `remove_texture_noise` uses IPF 3.1 for coefficient lookup
when the stored version is 3.2, but it does so by permanently overwriting
the stored `IPFversion` attribute: after the call the object carries 3.1
(later calls observe 3.1 and keep it fixed); products with any other IPF
version, and all other constructed-from-filename fields, are unchanged. -/
theorem remove_texture_noise_ipf_persistence (s : ProductState) :
    (s.IPFversion = 3.2 → (remove_texture_noise_state s).1.IPFversion = 3.1) ∧
    (s.IPFversion ≠ 3.2 → (remove_texture_noise_state s).1 = s) ∧
    (remove_texture_noise_state s).2 = (remove_texture_noise_state s).1.IPFversion ∧
    (remove_texture_noise_state s).1.obsMode = s.obsMode ∧
    (remove_texture_noise_state s).1.platform = s.platform ∧
    (remove_texture_noise_state s).1.crosspol = s.crosspol ∧
    (remove_texture_noise_state (remove_texture_noise_state s).1).1 =
      (remove_texture_noise_state s).1 := by
  by_cases h : s.IPFversion = 3.2
  · refine ⟨fun _ => ?_, fun hne => absurd h hne, ?_, ?_, ?_, ?_, ?_⟩ <;>
      simp [remove_texture_noise_state, h]
  · refine ⟨fun heq => absurd heq h, fun _ => ?_, ?_, ?_, ?_, ?_, ?_⟩ <;>
      simp [remove_texture_noise_state, h]

theorem remove_texture_noise_ipf_persistence_witness :
    c9State.IPFversion = 3.2 ∧
    (remove_texture_noise_state c9State).1.IPFversion = 3.1 :=
  ⟨rfl, (remove_texture_noise_ipf_persistence c9State).1 rfl⟩

/-- Rounds a nonnegative rational to the nearest integer with ties to even,
the rounding Python applies when formatting a float with `%0.<d>f`. -/
def roundHalfEven (q : ℚ) : ℤ :=
  if q - ⌊q⌋ < 1/2 then ⌊q⌋
  else if (1:ℚ)/2 < q - ⌊q⌋ then ⌊q⌋ + 1
  else if ⌊q⌋ % 2 = 0 then ⌊q⌋ else ⌊q⌋ + 1

/-- Left-pads a string with `'0'` up to width `w`; the zero-padding part of
Python's `{:04.2f}` format specification. -/
def padZeros (w : ℕ) (s : String) : String :=
  if s.length < w then String.mk (List.replicate (w - s.length) '0') ++ s else s

/-- Renders `scaled / 10^d` with exactly `d` decimal digits. -/
def fmtScaledNat (d : ℕ) (scaled : ℕ) : String :=
  Nat.repr (scaled / 10 ^ d) ++ "." ++ padZeros d (Nat.repr (scaled % 10 ^ d))

/-- Embeds Python fixed-point formatting `'%0.<d>f' % q` of a nonnegative
value: round `q·10^d` half-to-even and print with `d` decimal digits. -/
def fmtFixed (d : ℕ) (q : ℚ) : String := fmtScaledNat d (roundHalfEven (q * 10 ^ d)).toNat

/-- Embeds Python `f'{q:04.2f}'` as used for the APG key in
`Sentinel1Image.get_tg_scales_offsets` (line 406): two decimal digits,
zero-padded to a minimum total width of 4. -/
def fmt04_2f (q : ℚ) : String := padZeros 4 (fmtFixed 2 q)

/-- Embeds `base_key = f'{platform}_{mode}_{resolution}_{pol}'` of
`Sentinel1Image.import_denoisingCoefficients` (line 1131). -/
def coeff_base_key (platform mode resolution pol : String) : String :=
  platform ++ "_" ++ mode ++ "_" ++ resolution ++ "_" ++ pol

/-- Embeds `ns_key = f'{base_key}_NS_%0.1f' % IPFversion` (line 1135). -/
def make_ns_key (bk : String) (ipf : ℚ) : String := bk ++ "_NS_" ++ fmtFixed 1 ipf

/-- Embeds `pb_key = f'{base_key}_PB_%0.1f' % IPFversion` (line 1142). -/
def make_pb_key (bk : String) (ipf : ℚ) : String := bk ++ "_PB_" ++ fmtFixed 1 ipf

/-- Embeds `es_key = f'{base_key}_ES_%0.1f' % IPFversion` (line 1151). -/
def make_es_key (bk : String) (ipf : ℚ) : String := bk ++ "_ES_" ++ fmtFixed 1 ipf

/-- Embeds `nv_key = f'{base_key}_NV_%0.1f' % IPFversion` (line 1160). -/
def make_nv_key (bk : String) (ipf : ℚ) : String := bk ++ "_NV_" ++ fmtFixed 1 ipf

/-- Embeds `tg_id = f'{basename[:16]}_APG_{self.IPFversion:04.2f}'` of
`Sentinel1Image.get_tg_scales_offsets` (line 406). -/
def make_apg_key (fileprefix16 : String) (ipf : ℚ) : String :=
  fileprefix16 ++ "_APG_" ++ fmt04_2f ipf

/-- Key format stated by the spec for every coefficient kind:
`{platform}_{mode}_{resolution}_{pol}_{kind}_{IPF:.1f}` (one decimal digit
for all five kinds). -/
def spec_coeff_key (bk kind : String) (ipf : ℚ) : String :=
  bk ++ "_" ++ kind ++ "_" ++ fmtFixed 1 ipf

lemma fmtFixed_of_scale_eq_nat (d : ℕ) (q : ℚ) (k : ℕ) (h : q * 10 ^ d = (k : ℚ)) :
    fmtFixed d q = fmtScaledNat d k := by
  unfold fmtFixed
  rw [h]
  have hfl : roundHalfEven ((k : ℕ) : ℚ) = (k : ℤ) := by
    unfold roundHalfEven
    rw [show ((k : ℕ) : ℚ) = ((k : ℤ) : ℚ) by push_cast; ring, Int.floor_intCast]
    rw [if_pos (by norm_num)]
  rw [hfl]
  simp

lemma fmtFixed_one_28 : fmtFixed 1 (28/10 : ℚ) = "2.8" := by
  rw [fmtFixed_of_scale_eq_nat 1 (28/10 : ℚ) 28 (by norm_num)]
  decide

lemma fmtFixed_one_272 : fmtFixed 1 (272/100 : ℚ) = "2.7" := by
  have h : ((272/100 : ℚ) * 10 ^ 1) = 136/5 := by norm_num
  have hf : ⌊(136/5 : ℚ)⌋ = 27 := by norm_num [Int.floor_eq_iff]
  have hr : roundHalfEven ((272/100 : ℚ) * 10 ^ 1) = 27 := by
    rw [h]
    unfold roundHalfEven
    rw [hf, if_pos (by norm_num)]
  unfold fmtFixed
  rw [hr]
  decide

lemma fmt04_2f_272 : fmt04_2f (272/100 : ℚ) = "2.72" := by
  unfold fmt04_2f
  rw [fmtFixed_of_scale_eq_nat 2 (272/100 : ℚ) 272 (by norm_num)]
  decide

lemma fmt04_2f_31over10 : fmt04_2f (31/10 : ℚ) = "3.10" := by
  unfold fmt04_2f
  rw [fmtFixed_of_scale_eq_nat 2 (31/10 : ℚ) 310 (by norm_num)]
  decide

lemma fmtFixed_one_31over10 : fmtFixed 1 (31/10 : ℚ) = "3.1" := by
  rw [fmtFixed_of_scale_eq_nat 1 (31/10 : ℚ) 31 (by norm_num)]
  decide

lemma fmtFixed_one_28over10 : fmtFixed 1 (28/10 : ℚ) = "2.8" := fmtFixed_one_28

/-- C7 counterexample: at IPF 3.1 the APG lookup key carries the two-decimal
suffix `3.10`, while the `{IPF:.1f}` form of the spec would give `3.1` —
the APG key is not formatted with one decimal digit. -/
theorem apg_key_not_one_decimal :
    make_apg_key "S1A_EW_GRDM_1SDH" (31/10) = "S1A_EW_GRDM_1SDH_APG_" ++ "3.10" ∧
    spec_coeff_key "S1A_EW_GRDM_1SDH" "APG" (31/10) = "S1A_EW_GRDM_1SDH_APG_" ++ "3.1" ∧
    make_apg_key "S1A_EW_GRDM_1SDH" (31/10) ≠
      spec_coeff_key "S1A_EW_GRDM_1SDH" "APG" (31/10) := by
  have h1 : make_apg_key "S1A_EW_GRDM_1SDH" (31/10) = "S1A_EW_GRDM_1SDH_APG_" ++ "3.10" := by
    unfold make_apg_key
    rw [fmt04_2f_31over10]
    rfl
  have h2 : spec_coeff_key "S1A_EW_GRDM_1SDH" "APG" (31/10) =
      "S1A_EW_GRDM_1SDH_APG_" ++ "3.1" := by
    unfold spec_coeff_key
    rw [fmtFixed_one_31over10]
    rfl
  refine ⟨h1, h2, ?_⟩
  rw [h1, h2]
  decide

/-- C7 amended: the NS, PB, ES and NV lookups all use the spec's key form
`{base}_{kind}_{IPF:.1f}` with one decimal digit, but the APG lookup uses
`{filename[:16]}_APG_{IPF:04.2f}` with two decimal digits (zero-padded to
width 4): at IPF 2.72 the four kinds key on `2.7` while APG keys on `2.72`. -/
theorem coeff_key_formats :
    (∀ bk ipf, make_ns_key bk ipf = spec_coeff_key bk "NS" ipf) ∧
    (∀ bk ipf, make_pb_key bk ipf = spec_coeff_key bk "PB" ipf) ∧
    (∀ bk ipf, make_es_key bk ipf = spec_coeff_key bk "ES" ipf) ∧
    (∀ bk ipf, make_nv_key bk ipf = spec_coeff_key bk "NV" ipf) ∧
    fmtFixed 1 (272/100) = "2.7" ∧ fmt04_2f (272/100) = "2.72" ∧
    (∀ p16, make_apg_key p16 (272/100) = p16 ++ "_APG_" ++ "2.72") := by
  refine ⟨?_, ?_, ?_, ?_, fmtFixed_one_272, fmt04_2f_272, ?_⟩
  · intro bk ipf
    unfold make_ns_key spec_coeff_key
    rw [show (bk ++ "_" ++ "NS" ++ "_" : String) = bk ++ "_NS_" by
      rw [String.append_assoc, String.append_assoc]; rfl]
  · intro bk ipf
    unfold make_pb_key spec_coeff_key
    rw [show (bk ++ "_" ++ "PB" ++ "_" : String) = bk ++ "_PB_" by
      rw [String.append_assoc, String.append_assoc]; rfl]
  · intro bk ipf
    unfold make_es_key spec_coeff_key
    rw [show (bk ++ "_" ++ "ES" ++ "_" : String) = bk ++ "_ES_" by
      rw [String.append_assoc, String.append_assoc]; rfl]
  · intro bk ipf
    unfold make_nv_key spec_coeff_key
    rw [show (bk ++ "_" ++ "NV" ++ "_" : String) = bk ++ "_NV_" by
      rw [String.append_assoc, String.append_assoc]; rfl]
  · intro p16
    unfold make_apg_key
    rw [fmt04_2f_272]

/-- A wall-clock instant as parsed by
`datetime.strptime(filename.split('_')[4], '%Y%m%dT%H%M%S')`. -/
structure DateTime6 where
  year : ℕ
  month : ℕ
  day : ℕ
  hour : ℕ
  minute : ℕ
  second : ℕ
deriving DecidableEq, Repr

/-- Python `datetime` comparison: lexicographic on the six fields. -/
def dtLe (a b : DateTime6) : Bool :=
  if a.year ≠ b.year then decide (a.year < b.year)
  else if a.month ≠ b.month then decide (a.month < b.month)
  else if a.day ≠ b.day then decide (a.day < b.day)
  else if a.hour ≠ b.hour then decide (a.hour < b.hour)
  else if a.minute ≠ b.minute then decide (a.minute < b.minute)
  else decide (a.second ≤ b.second)

/-- The instant `datetime(2017, 1, 16, 13, 42, 34)` of the S1B AUX_PP1
scaling-LUT change (`import_denoisingCoefficients`, line 1125). -/
def s1b272threshold : DateTime6 := ⟨2017, 1, 16, 13, 42, 34⟩

/-- Embeds the IPF-version adaptation of
`Sentinel1Image.import_denoisingCoefficients` (lines 1123-1129):
`if platform=='S1B' and IPFversion==2.72 and sensingDate >= datetime(2017,1,16,13,42,34):
IPFversion = 2.8` (272/100 and 28/10 are the exact values of the literals
2.72 and 2.8). -/
def effectiveIPFversion (platform : String) (ipf : ℚ) (sensingDate : DateTime6) : ℚ :=
  if platform = "S1B" ∧ ipf = 272/100 ∧ dtLe s1b272threshold sensingDate = true then
    28/10
  else ipf

/-- C6: an S1B product at IPF 2.72 keys the NS and PB coefficient lookup on
the IPF 2.8 table entries exactly when its sensing start is at or after
2017-01-16 13:42:34 UTC; earlier S1B 2.72 products key on their own version
(formatted `2.7` by the one-decimal format), and any other platform or IPF
version keys on its own value. -/
theorem s1b_272_coefficient_lookup (s : DateTime6) (bk : String) :
    (dtLe s1b272threshold s = true →
      make_ns_key bk (effectiveIPFversion "S1B" (272/100) s) = bk ++ "_NS_" ++ "2.8" ∧
      make_pb_key bk (effectiveIPFversion "S1B" (272/100) s) = bk ++ "_PB_" ++ "2.8") ∧
    (dtLe s1b272threshold s = false →
      make_ns_key bk (effectiveIPFversion "S1B" (272/100) s) = bk ++ "_NS_" ++ "2.7" ∧
      make_pb_key bk (effectiveIPFversion "S1B" (272/100) s) = bk ++ "_PB_" ++ "2.7") ∧
    (∀ platform ipf, platform ≠ "S1B" → effectiveIPFversion platform ipf s = ipf) ∧
    (∀ platform ipf, ipf ≠ 272/100 → effectiveIPFversion platform ipf s = ipf) := by
  refine ⟨?_, ?_, ?_, ?_⟩
  · intro h
    have heff : effectiveIPFversion "S1B" (272/100) s = 28/10 := by
      unfold effectiveIPFversion
      rw [if_pos ⟨rfl, rfl, h⟩]
    rw [heff]
    unfold make_ns_key make_pb_key
    rw [fmtFixed_one_28]
    exact ⟨rfl, rfl⟩
  · intro h
    have heff : effectiveIPFversion "S1B" (272/100) s = 272/100 := by
      unfold effectiveIPFversion
      rw [if_neg (by simp [h])]
    rw [heff]
    unfold make_ns_key make_pb_key
    rw [fmtFixed_one_272]
    exact ⟨rfl, rfl⟩
  · intro platform ipf hp
    unfold effectiveIPFversion
    rw [if_neg (by simp [hp])]
  · intro platform ipf hipf
    unfold effectiveIPFversion
    rw [if_neg (by simp [hipf])]

theorem s1b_272_coefficient_lookup_witness :
    dtLe s1b272threshold ⟨2017, 1, 20, 0, 0, 0⟩ = true ∧
    make_ns_key "S1B_EW_GRDM_HV"
      (effectiveIPFversion "S1B" (272/100) ⟨2017, 1, 20, 0, 0, 0⟩) =
      "S1B_EW_GRDM_HV" ++ "_NS_" ++ "2.8" :=
  ⟨by decide,
   ((s1b_272_coefficient_lookup ⟨2017, 1, 20, 0, 0, 0⟩ "S1B_EW_GRDM_HV").1 (by decide)).1⟩

/-- The denoising-parameters JSON: a map from key strings to per-swath
tables of rational coefficients. -/
abbrev CoeffParams := List (String × List (String × ℚ))

/-- Key lookup in the JSON object: Python `key in params` / `params[key]`. -/
def params_find (params : CoeffParams) (key : String) : Option (List (String × ℚ)) :=
  (params.find? (fun kv => kv.1 == key)).map (fun kv => kv.2)

/-- Embeds Python `table.get(subswathID, default)`. -/
def subswath_get (tbl : List (String × ℚ)) (sw : String) (dflt : ℚ) : ℚ :=
  match tbl.find? (fun kv => kv.1 == sw) with
  | some kv => kv.2
  | none => dflt

/-- Result of one coefficient lookup: the value used by the pipeline and
whether the missing-key warning was printed. -/
structure CoeffLookup where
  value : ℚ
  warned : Bool
deriving DecidableEq, Repr

/-- Embeds the NS branch of `Sentinel1Image.import_denoisingCoefficients`
(lines 1135-1140): value from the table when the key exists (default 1 for
a missing subswath), else 1 with a printed warning; no exception path. -/
def lookup_noise_scaling (params : CoeffParams) (nsk sw : String) : CoeffLookup :=
  match params_find params nsk with
  | some tbl => ⟨subswath_get tbl sw 1, false⟩
  | none => ⟨1, true⟩

/-- Embeds the PB branch of `Sentinel1Image.import_denoisingCoefficients`
(lines 1142-1147): value from the table when the key exists (default 0 for
a missing subswath), else 0 with a printed warning; no exception path. -/
def lookup_power_balancing (params : CoeffParams) (pbk sw : String) : CoeffLookup :=
  match params_find params pbk with
  | some tbl => ⟨subswath_get tbl sw 0, false⟩
  | none => ⟨0, true⟩

/-- Embeds the per-cell correction of
`Sentinel1Image.get_corrected_noise_vectors` (lines 621-623):
`nesz * ns[swath]` plus, when `add_pb`, `pb[swath]`. -/
def apply_ns_pb (x ns pb : ℚ) (add_pb : Bool) : ℚ :=
  if add_pb then x * ns + pb else x * ns

/-- C4: when the coefficient JSON lacks the NS key or the PB key for the
product, the lookup falls back to `ns = 1` and `pb = 0` for every subswath,
the warning is emitted, no exception is raised (the lookup is total), and
the downstream correction with these defaults leaves the NESZ unchanged. -/
theorem missing_ns_pb_defaults (params : CoeffParams) (nsk pbk sw : String) (x : ℚ)
    (hns : params_find params nsk = none) (hpb : params_find params pbk = none) :
    lookup_noise_scaling params nsk sw = ⟨1, true⟩ ∧
    lookup_power_balancing params pbk sw = ⟨0, true⟩ ∧
    apply_ns_pb x (lookup_noise_scaling params nsk sw).value
      (lookup_power_balancing params pbk sw).value true = x := by
  have h1 : lookup_noise_scaling params nsk sw = ⟨1, true⟩ := by
    unfold lookup_noise_scaling
    rw [hns]
  have h2 : lookup_power_balancing params pbk sw = ⟨0, true⟩ := by
    unfold lookup_power_balancing
    rw [hpb]
  refine ⟨h1, h2, ?_⟩
  rw [h1, h2]
  unfold apply_ns_pb
  simp

theorem missing_ns_pb_defaults_witness :
    params_find [] "S1B_EW_GRDM_HV_NS_2.8" = none ∧
    lookup_noise_scaling [] "S1B_EW_GRDM_HV_NS_2.8" "EW1" = ⟨1, true⟩ ∧
    lookup_power_balancing [] "S1B_EW_GRDM_HV_PB_2.8" "EW1" = ⟨0, true⟩ ∧
    apply_ns_pb 5 (lookup_noise_scaling [] "S1B_EW_GRDM_HV_NS_2.8" "EW1").value
      (lookup_power_balancing [] "S1B_EW_GRDM_HV_PB_2.8" "EW1").value true = 5 :=
  ⟨rfl,
   (missing_ns_pb_defaults [] "S1B_EW_GRDM_HV_NS_2.8" "S1B_EW_GRDM_HV_PB_2.8" "EW1" 5
      rfl rfl).1,
   (missing_ns_pb_defaults [] "S1B_EW_GRDM_HV_NS_2.8" "S1B_EW_GRDM_HV_PB_2.8" "EW1" 5
      rfl rfl).2.1,
   (missing_ns_pb_defaults [] "S1B_EW_GRDM_HV_NS_2.8" "S1B_EW_GRDM_HV_PB_2.8" "EW1" 5
      rfl rfl).2.2⟩

/-- One range-noise vector of `Sentinel1Image.noise_range`: annotation line,
pixel indices and noise LUT samples (`none` models a non-finite LUT entry). -/
structure NoiseVec where
  line : ℕ
  pixel : List ℕ
  noise : List (Option ℚ)
deriving Inhabited, Repr

/-- Default relative tolerance of `np.allclose`. -/
def np_rtol : ℚ := 1/100000

/-- Default absolute tolerance of `np.allclose`. -/
def np_atol : ℚ := 1/100000000

/-- Embeds `np.allclose(noise_valid, noise_valid[0])` (line 592):
`|a - b| <= atol + rtol*|b|` for every element against the first one. -/
def np_allclose_const (xs : List ℚ) (x0 : ℚ) : Bool :=
  xs.all (fun x => decide (|x - x0| ≤ np_atol + np_rtol * |x0|))

/-- Embeds `valid2 = np.where((pixel[v1] >= frs) * (pixel[v1] <= lrs) *
np.isfinite(noise[v1]))[0]` of `get_shifted_noise_vectors` (lines 577-580). -/
def valid2 (b : Block) (v : NoiseVec) : List ℕ :=
  (List.range v.pixel.length).filter
    (fun i => decide (b.frs ≤ v.pixel.getD i 0 ∧ v.pixel.getD i 0 ≤ b.lrs ∧
      (v.noise.getD i none).isSome = true))

/-- Embeds `np.unique(pixel[v1][valid2], return_index=True)` followed by
`valid2 = valid2[valid_pix_i]` (lines 583-584): the distinct pixel values in
ascending order, each replaced by the first index in `idxs` holding it. -/
def uniqueFirstIdx (ps : List ℕ) (idxs : List ℕ) : List ℕ :=
  (List.insertionSort (· ≤ ·) ((idxs.map (fun i => ps.getD i 0)).dedup)).filterMap
    (fun w => idxs.find? (fun i => ps.getD i 0 == w))

/-- Embeds the fancy-indexed assignment `noise_shifted[v1][valid2] = vals`:
positions `idxs` receive `vals` pairwise; other positions keep their value. -/
def writeAt (o : List ℚ) (idxs : List ℕ) (vals : List ℚ) : List ℚ :=
  (idxs.zip vals).foldl (fun acc iv => acc.set iv.1 iv.2) o

/-- Embeds the body of the per-(block, vector) step of
`Sentinel1Image.get_shifted_noise_vectors` (lines 581-598): when at least
`min_valid_size` valid pixels exist, the unique valid pixels are selected;
if the noise values there are `np.allclose`-constant they are written back
unchanged, otherwise the spline-optimizer path (`InterpolatedUnivariateSpline`,
`minimize(cost, 0, ...)` over the 4-sample-skipped border, evaluation at
`valid_pix + pixel_shift`) — abstracted as `shifter` — produces the values
to write. -/
def process_block_vector (shifter : List ℕ → List ℚ → List ℚ) (min_valid_size : ℕ)
    (b : Block) (v : NoiseVec) (o : List ℚ) : List ℚ :=
  if min_valid_size ≤ (valid2 b v).length then
    if np_allclose_const
        ((uniqueFirstIdx v.pixel (valid2 b v)).map (fun i => (v.noise.getD i none).getD 0))
        (((uniqueFirstIdx v.pixel (valid2 b v)).map
            (fun i => (v.noise.getD i none).getD 0)).getD 0 0) then
      writeAt o (uniqueFirstIdx v.pixel (valid2 b v))
        ((uniqueFirstIdx v.pixel (valid2 b v)).map (fun i => (v.noise.getD i none).getD 0))
    else
      writeAt o (uniqueFirstIdx v.pixel (valid2 b v))
        (shifter ((uniqueFirstIdx v.pixel (valid2 b v)).map (fun i => v.pixel.getD i 0))
          ((uniqueFirstIdx v.pixel (valid2 b v)).map (fun i => (v.noise.getD i none).getD 0)))
  else o

/-- Embeds `Sentinel1Image.get_shifted_noise_vectors`: every output vector
starts as `np.zeros(p.size)`; the swath-bounds blocks are visited in their
per-swath iteration order, and each block processes the vectors whose line
lies inside its azimuth range. -/
def get_shifted_noise_vectors (shifter : List ℕ → List ℚ → List ℚ)
    (min_valid_size : ℕ) (blocks : List Block) (vecs : List NoiseVec) :
    List (List ℚ) :=
  blocks.foldl
    (fun outs b =>
      (vecs.zip outs).map
        (fun vo =>
          if b.fal ≤ vo.1.line ∧ vo.1.line ≤ b.lal then
            process_block_vector shifter min_valid_size b vo.1 vo.2
          else vo.2))
    (vecs.map (fun v => List.replicate v.pixel.length (0 : ℚ)))

lemma mem_valid2 (b : Block) (v : NoiseVec) (i : ℕ) :
    i ∈ valid2 b v ↔ i < v.pixel.length ∧ b.frs ≤ v.pixel.getD i 0 ∧
      v.pixel.getD i 0 ≤ b.lrs ∧ (v.noise.getD i none).isSome = true := by
  unfold valid2
  simp [List.mem_filter, List.mem_range]

lemma pairwise_lt_valid2 (b : Block) (v : NoiseVec) :
    (valid2 b v).Pairwise (· < ·) := by
  unfold valid2
  exact List.Pairwise.filter _
    (by simpa [List.range_eq_range'] using
      List.pairwise_lt_range' 0 v.pixel.length 1)

lemma nodup_valid2 (b : Block) (v : NoiseVec) : (valid2 b v).Nodup :=
  (pairwise_lt_valid2 b v).imp Nat.ne_of_lt

lemma getD_set_ne (l : List ℚ) (a i : ℕ) (w : ℚ) (h : a ≠ i) :
    (l.set a w).getD i 0 = l.getD i 0 := by
  simp [List.getD_eq_getElem?_getD, List.getElem?_set_ne h]

lemma getD_set_self (l : List ℚ) (a : ℕ) (w : ℚ) (h : a < l.length) :
    (l.set a w).getD a 0 = w := by
  simp [List.getD_eq_getElem?_getD, List.getElem?_set_self h]

lemma writeAt_not_mem (idxs : List ℕ) :
    ∀ (o : List ℚ) (vals : List ℚ) (i : ℕ), i ∉ idxs →
      (writeAt o idxs vals).getD i 0 = o.getD i 0 := by
  induction idxs with
  | nil => intro o vals i _; rfl
  | cons a as ih =>
      intro o vals i h
      cases vals with
      | nil => simp [writeAt]
      | cons w ws =>
          have ha : a ≠ i := fun hc => h (hc ▸ List.mem_cons_self a as)
          have hrest : i ∉ as := fun hc => h (List.mem_cons_of_mem a hc)
          show (writeAt (o.set a w) as ws).getD i 0 = o.getD i 0
          rw [ih (o.set a w) ws i hrest]
          exact getD_set_ne o a i w ha

lemma writeAt_map_getD (f : ℕ → ℚ) (idxs : List ℕ) :
    ∀ (o : List ℚ) (i : ℕ), idxs.Nodup → i ∈ idxs → i < o.length →
      (writeAt o idxs (idxs.map f)).getD i 0 = f i := by
  induction idxs with
  | nil => intro o i _ hmem _; cases hmem
  | cons a as ih =>
      intro o i hnd hmem hlen
      show (writeAt (o.set a (f a)) as (as.map f)).getD i 0 = f i
      rcases List.mem_cons.mp hmem with rfl | hi
      · have hnotin : i ∉ as := (List.nodup_cons.mp hnd).1
        rw [writeAt_not_mem as _ _ i hnotin]
        exact getD_set_self o i (f i) hlen
      · exact ih (o.set a (f a)) i (List.nodup_cons.mp hnd).2 hi (by simpa using hlen)

lemma uniqueFirstIdx_subset (ps idxs : List ℕ) (x : ℕ)
    (hx : x ∈ uniqueFirstIdx ps idxs) : x ∈ idxs := by
  unfold uniqueFirstIdx at hx
  rcases List.mem_filterMap.mp hx with ⟨w, _, hfind⟩
  exact List.mem_of_find?_eq_some hfind

lemma filterMap_find_self (f : ℕ → ℕ) :
    ∀ (idxs : List ℕ), (idxs.map f).Pairwise (· < ·) →
      (idxs.map f).filterMap (fun w => idxs.find? (fun i => f i == w)) = idxs
  | [], _ => rfl
  | a :: rest, h => by
      have hhead : ∀ y ∈ rest.map f, f a < y := (List.pairwise_cons.mp h).1
      have htail : (rest.map f).Pairwise (· < ·) := (List.pairwise_cons.mp h).2
      show List.filterMap _ (f a :: rest.map f) = a :: rest
      rw [List.filterMap_cons]
      have hfa : (a :: rest).find? (fun i => f i == f a) = some a :=
        List.find?_cons_of_pos _ (by simp)
      rw [hfa]
      show a :: List.filterMap
          (fun w => List.find? (fun i => f i == w) (a :: rest)) (List.map f rest) = a :: rest
      congr 1
      rw [List.filterMap_congr
        (fun w hw => List.find?_cons_of_neg _
          (by simpa using Nat.ne_of_lt (hhead w hw)))]
      exact filterMap_find_self f rest htail

lemma uniqueFirstIdx_eq_self (ps idxs : List ℕ)
    (h : (idxs.map (fun i => ps.getD i 0)).Pairwise (· < ·)) :
    uniqueFirstIdx ps idxs = idxs := by
  unfold uniqueFirstIdx
  have hnd : (idxs.map (fun i => ps.getD i 0)).Nodup := h.imp Nat.ne_of_lt
  rw [List.dedup_eq_self.mpr hnd]
  rw [List.Sorted.insertionSort_eq (h.imp Nat.le_of_lt)]
  exact filterMap_find_self (fun i => ps.getD i 0) idxs h

lemma map_getD_pairwise (ps : List ℕ) (idxs : List ℕ)
    (hps : ps.Pairwise (· < ·)) (hidx : idxs.Pairwise (· < ·))
    (hbound : ∀ i ∈ idxs, i < ps.length) :
    (idxs.map (fun i => ps.getD i 0)).Pairwise (· < ·) := by
  rw [List.pairwise_map]
  refine List.Pairwise.imp_of_mem ?_ hidx
  intro a b ha hb hab
  have ha' := hbound a ha
  have hb' := hbound b hb
  rw [List.getD_eq_getElem _ _ ha', List.getD_eq_getElem _ _ hb']
  exact List.pairwise_iff_getElem.mp hps a b ha' hb' hab

/-- C5: for a (swath-block, noise-vector) pair whose noise LUT values over
the valid pixels all equal a constant `c`, and whose pixel indices are
strictly increasing (the documented invariant of range-noise vectors), the
shifted-noise step writes the input noise values back unchanged at every
valid position — for every behaviour of the spline-optimizer path
(`shifter`), which is therefore never consulted. -/
theorem constant_noise_not_shifted (shifter : List ℕ → List ℚ → List ℚ)
    (min_valid_size : ℕ) (b : Block) (v : NoiseVec) (o : List ℚ) (c : ℚ)
    (hinc : v.pixel.Pairwise (· < ·))
    (hsize : min_valid_size ≤ (valid2 b v).length)
    (hconst : ∀ i ∈ valid2 b v, v.noise.getD i none = some c) :
    ∀ i ∈ valid2 b v, i < o.length →
      (process_block_vector shifter min_valid_size b v o).getD i 0 = c ∧
      (process_block_vector shifter min_valid_size b v o).getD i 0 =
        (v.noise.getD i none).getD 0 := by
  intro i hi hilen
  have hbound : ∀ j ∈ valid2 b v, j < v.pixel.length :=
    fun j hj => ((mem_valid2 b v j).mp hj).1
  have hmap := map_getD_pairwise v.pixel (valid2 b v) hinc (pairwise_lt_valid2 b v) hbound
  have huniq : uniqueFirstIdx v.pixel (valid2 b v) = valid2 b v :=
    uniqueFirstIdx_eq_self _ _ hmap
  have hnoise : (valid2 b v).map (fun j => (v.noise.getD j none).getD 0) =
      (valid2 b v).map (fun _ => c) :=
    List.map_congr_left (fun j hj => by rw [hconst j hj]; rfl)
  have hall : np_allclose_const ((valid2 b v).map (fun _ => c))
      (((valid2 b v).map (fun _ => c)).getD 0 0) = true := by
    unfold np_allclose_const
    rw [List.all_eq_true]
    intro x hx
    rcases List.mem_map.mp hx with ⟨j, hj, rfl⟩
    have hhead : ((valid2 b v).map (fun _ => c)).getD 0 0 = c := by
      cases hv2 : valid2 b v with
      | nil => rw [hv2] at hi; cases hi
      | cons y ys => rfl
    rw [hhead]
    simp only [decide_eq_true_eq, sub_self, abs_zero, np_atol, np_rtol]
    positivity
  have hwrite : (process_block_vector shifter min_valid_size b v o).getD i 0 = c := by
    unfold process_block_vector
    rw [if_pos hsize, huniq, hnoise, if_pos hall]
    exact writeAt_map_getD (fun _ => c) (valid2 b v) o i (nodup_valid2 b v) hi hilen
  refine ⟨hwrite, ?_⟩
  rw [hwrite, hconst i hi]
  rfl

/-- Block and vector instances for the C5 witness: ten valid pixels with a
constant noise LUT. -/
def c5Block : Block := ⟨0, 10, 0, 100⟩

def c5Vec : NoiseVec := ⟨5, [0, 1, 2, 3, 4, 5, 6, 7, 8, 9], List.replicate 10 (some 1)⟩

theorem constant_noise_not_shifted_witness :
    10 ≤ (valid2 c5Block c5Vec).length ∧
    (process_block_vector (fun _ _ => []) 10 c5Block c5Vec
      (List.replicate 10 0)).getD 0 0 = 1 :=
  ⟨by decide,
   ((constant_noise_not_shifted (fun _ _ => []) 10 c5Block c5Vec
       (List.replicate 10 0) 1 (by decide) (by decide) (by decide))
     0 (by decide) (by decide)).1⟩

lemma shifted_fold_invariant (shifter : List ℕ → List ℚ → List ℚ)
    (min_valid_size : ℕ) (vecs : List NoiseVec) (vi i : ℕ) (v : NoiseVec)
    (hvi : vi < vecs.length) (hv : vecs.getD vi default = v) :
    ∀ (blocks : List Block) (outs : List (List ℚ)),
      outs.length = vecs.length →
      (outs.getD vi []).getD i 0 = 0 →
      (∀ b ∈ blocks, (b.fal ≤ v.line ∧ v.line ≤ b.lal ∧
          b.frs ≤ v.pixel.getD i 0 ∧ v.pixel.getD i 0 ≤ b.lrs) →
          (valid2 b v).length < min_valid_size) →
      (((blocks.foldl
          (fun outs b =>
            (vecs.zip outs).map
              (fun vo =>
                if b.fal ≤ vo.1.line ∧ vo.1.line ≤ b.lal then
                  process_block_vector shifter min_valid_size b vo.1 vo.2
                else vo.2))
          outs).getD vi []).getD i 0) = 0
  | [], _, _, h0, _ => h0
  | b :: bs, outs, hlen, h0, hb => by
      have hvo : vi < outs.length := by omega
      have hveq : vecs[vi] = v := by
        rw [← hv, List.getD_eq_getElem _ _ hvi]
      have houts0 : (outs[vi]).getD i 0 = 0 := by
        have hge := List.getD_eq_getElem outs ([] : List ℚ) hvo
        rw [← hge]
        exact h0
      have hstep :
          (((vecs.zip outs).map
            (fun vo =>
              if b.fal ≤ vo.1.line ∧ vo.1.line ≤ b.lal then
                process_block_vector shifter min_valid_size b vo.1 vo.2
              else vo.2)).getD vi []).getD i 0 = 0 := by
        have hlz : vi < (vecs.zip outs).length := by
          rw [List.length_zip]; omega
        have hlm : vi < ((vecs.zip outs).map
            (fun vo =>
              if b.fal ≤ vo.1.line ∧ vo.1.line ≤ b.lal then
                process_block_vector shifter min_valid_size b vo.1 vo.2
              else vo.2)).length := by
          rw [List.length_map]; exact hlz
        rw [List.getD_eq_getElem _ _ hlm, List.getElem_map, List.getElem_zip, hveq]
        by_cases hline : b.fal ≤ v.line ∧ v.line ≤ b.lal
        · rw [if_pos hline]
          by_cases hguard : min_valid_size ≤ (valid2 b v).length
          · have hnot : i ∉ uniqueFirstIdx v.pixel (valid2 b v) := by
              intro hmem
              have hiv2 : i ∈ valid2 b v := uniqueFirstIdx_subset _ _ i hmem
              have hprops := (mem_valid2 b v i).mp hiv2
              have := hb b (List.mem_cons_self b bs)
                ⟨hline.1, hline.2, hprops.2.1, hprops.2.2.1⟩
              omega
            unfold process_block_vector
            rw [if_pos hguard]
            by_cases hcl : np_allclose_const
                ((uniqueFirstIdx v.pixel (valid2 b v)).map
                  (fun j => (v.noise.getD j none).getD 0))
                (((uniqueFirstIdx v.pixel (valid2 b v)).map
                  (fun j => (v.noise.getD j none).getD 0)).getD 0 0) = true
            · rw [if_pos hcl, writeAt_not_mem _ _ _ _ hnot]
              exact houts0
            · rw [if_neg hcl, writeAt_not_mem _ _ _ _ hnot]
              exact houts0
          · unfold process_block_vector
            rw [if_neg hguard]
            exact houts0
        · rw [if_neg hline]
          exact houts0
      refine shifted_fold_invariant shifter min_valid_size vecs vi i v hvi hv bs _ ?_ ?_ ?_
      · rw [List.length_map, List.length_zip]; omega
      · have hlm : vi < ((vecs.zip outs).map
            (fun vo =>
              if b.fal ≤ vo.1.line ∧ vo.1.line ≤ b.lal then
                process_block_vector shifter min_valid_size b vo.1 vo.2
              else vo.2)).length := by
          rw [List.length_map, List.length_zip]; omega
        rw [List.getD_eq_getElem _ _ hlm] at hstep ⊢
        exact hstep
      · exact fun b' hb' => hb b' (List.mem_cons_of_mem b hb')

/-- C10: a position of a shifted-noise output vector that lies in no
swath-bounds block able to process it — either because it is outside every
block, or because every block containing it has fewer than `min_valid_size`
valid pixels for that vector — keeps the zero from the
`np.zeros(p.size)` initialisation: the returned value is exactly 0, not the
raw noise value and not NaN. -/
theorem unwritten_positions_zero (shifter : List ℕ → List ℚ → List ℚ)
    (min_valid_size : ℕ) (blocks : List Block) (vecs : List NoiseVec)
    (vi i : ℕ) (v : NoiseVec) (hvi : vi < vecs.length)
    (hv : vecs.getD vi default = v)
    (hb : ∀ b ∈ blocks, (b.fal ≤ v.line ∧ v.line ≤ b.lal ∧
        b.frs ≤ v.pixel.getD i 0 ∧ v.pixel.getD i 0 ≤ b.lrs) →
        (valid2 b v).length < min_valid_size) :
    ((get_shifted_noise_vectors shifter min_valid_size blocks vecs).getD vi []).getD i 0 = 0 := by
  unfold get_shifted_noise_vectors
  refine shifted_fold_invariant shifter min_valid_size vecs vi i v hvi hv blocks _ ?_ ?_ hb
  · rw [List.length_map]
  · have hlm : vi < (vecs.map (fun v => List.replicate v.pixel.length (0 : ℚ))).length := by
      rw [List.length_map]; exact hvi
    rw [List.getD_eq_getElem _ _ hlm, List.getElem_map]
    simp [List.getD_eq_getElem?_getD]

/-- Instances for the C10 witness: the single pixel lies outside the only
block's range-sample interval. -/
def c10Block : Block := ⟨0, 10, 0, 100⟩

def c10Vec : NoiseVec := ⟨5, [200], [some 1]⟩

theorem unwritten_positions_zero_witness :
    (∀ b ∈ [c10Block], (b.fal ≤ c10Vec.line ∧ c10Vec.line ≤ b.lal ∧
        b.frs ≤ c10Vec.pixel.getD 0 0 ∧ c10Vec.pixel.getD 0 0 ≤ b.lrs) →
        (valid2 b c10Vec).length < 10) ∧
    ((get_shifted_noise_vectors (fun _ _ => [0]) 10 [c10Block] [c10Vec]).getD 0 []).getD 0 0 = 0 :=
  ⟨by decide,
   unwritten_positions_zero (fun _ _ => [0]) 10 [c10Block] [c10Vec] 0 0 c10Vec
     (by decide) rfl (by decide)⟩

/-- The per-(polarization, subswath) auxiliary-calibration record consumed
by `Sentinel1Image.get_eap_interpolator`: stored elevation-antenna-pattern
samples, the `count` attribute of the XML `values` element, and the
elevation angle increment. -/
structure EAPData where
  elevationAntennaPattern : List ℚ
  elevationAntennaPatternCount : ℕ
  elevationAngleIncrement : ℚ
deriving Repr

/-- A symbolic amplitude sample: `db x` stands for `10^(x/10)` (the dB
branch) and `cplx re im` for `re^2 + im^2` under the square root (the
interleaved complex branch); kept symbolic because real powers and square
roots are the numeric library's domain. -/
inductive AmpVal
  | db (x : ℚ)
  | cplx (re im : ℚ)
deriving DecidableEq, Repr

/-- Embeds the NumPy slice `eap_lut[0:-1:2]`: elements at even indices
strictly below `len - 1`. -/
def everyOtherDropLast : List ℚ → List ℚ
  | [] => []
  | [_] => []
  | a :: _ :: rest => a :: everyOtherDropLast rest

/-- Embeds the NumPy slice `eap_lut[1::2]`: elements at odd indices. -/
def everyOtherFromSecond : List ℚ → List ℚ
  | [] => []
  | [_] => []
  | _ :: b :: rest => b :: everyOtherFromSecond rest

/-- Embeds the amplitude computation of `get_eap_interpolator`
(lines 504-508): the dB branch `10**(eap_lut/10)` when
`recordLength == eap_lut.shape[0]`, else the interleaved pairing
`sqrt(eap_lut[0:-1:2]**2 + eap_lut[1::2]**2)`. -/
def amplitudeLUT (d : EAPData) : List AmpVal :=
  if d.elevationAntennaPatternCount = d.elevationAntennaPattern.length then
    d.elevationAntennaPattern.map AmpVal.db
  else
    List.zipWith AmpVal.cplx (everyOtherDropLast d.elevationAntennaPattern)
      (everyOtherFromSecond d.elevationAntennaPattern)

/-- Embeds `angleLUT = np.arange(-(recordLength//2), +(recordLength//2)+1) *
elevationAngleIncrement` (line 510). -/
def angleLUT (recordLength : ℕ) (inc : ℚ) : List ℚ :=
  (List.range (recordLength / 2 + (recordLength / 2 + 1))).map
    (fun (i : ℕ) => ((i : ℚ) - ((recordLength / 2 : ℕ) : ℚ)) * inc)

/-- Embeds `Sentinel1Image.get_eap_interpolator`, reduced to the data the
returned `InterpolatedUnivariateSpline` is trained on: the angle axis and
the amplitude samples (whose square roots are the spline's y values). -/
def get_eap_interpolator (d : EAPData) : List ℚ × List AmpVal :=
  (angleLUT d.elevationAntennaPatternCount d.elevationAngleIncrement, amplitudeLUT d)

/-- Instance for the C8 counterexample: a dB-case record with an even
sample count. -/
def c8Even : EAPData := ⟨[0, 0], 2, 1⟩

/-- C8 counterexample: with an even sample count (N = 2, dB case) the angle
axis has `2*(N//2)+1 = 3` points while the amplitude array has 2 — the two
do not have the same number of points, and scipy's spline constructor
would reject them. -/
theorem eap_axis_length_mismatch_even :
    (get_eap_interpolator c8Even).1.length = 3 ∧
    (get_eap_interpolator c8Even).2.length = 2 ∧ (3 : ℕ) ≠ 2 := by
  refine ⟨rfl, by decide, by decide⟩

lemma zip_stride_pairs :
    ∀ (c : ℕ) (l : List ℚ), l.length = 2 * c →
      List.zipWith AmpVal.cplx (everyOtherDropLast l) (everyOtherFromSecond l) =
        (List.range c).map (fun i => AmpVal.cplx (l.getD (2*i) 0) (l.getD (2*i+1) 0))
  | 0, l, hl => by
      have : l = [] := List.length_eq_zero.mp (by omega)
      subst this
      rfl
  | c + 1, l, hl => by
      match l, hl with
      | a :: b :: rest, hl =>
          have hrest : rest.length = 2 * c := by
            simp only [List.length_cons] at hl
            omega
          show AmpVal.cplx a b ::
              List.zipWith AmpVal.cplx (everyOtherDropLast rest) (everyOtherFromSecond rest) =
            (List.range (c + 1)).map
              (fun i => AmpVal.cplx ((a :: b :: rest).getD (2*i) 0)
                ((a :: b :: rest).getD (2*i+1) 0))
          rw [zip_stride_pairs c rest hrest, List.range_succ_eq_map]
          rw [List.map_cons, List.map_map]
          congr 1

/-- C8 amended: for an odd `elevationAntennaPatternCount` (the shape of the
delivered antenna patterns) the construction behaves as the claim states:
in the dB case (count equal to the number of stored samples) the amplitude
is `10^(x/10)` per sample, otherwise (stored length twice the count) the
samples are interleaved `(real, imag)` pairs with amplitude
`sqrt(re^2+im^2)`; the angle axis is `(i - count//2)·Δ`, and it has the same
number of points as the amplitude array.  For an even count the two lengths
differ by one and the spline constructor would fail. -/
theorem eap_interpolator_structure (d : EAPData)
    (hodd : d.elevationAntennaPatternCount % 2 = 1) :
    (d.elevationAntennaPatternCount = d.elevationAntennaPattern.length →
      amplitudeLUT d = d.elevationAntennaPattern.map AmpVal.db ∧
      (get_eap_interpolator d).1.length = (get_eap_interpolator d).2.length) ∧
    (d.elevationAntennaPattern.length = 2 * d.elevationAntennaPatternCount →
      amplitudeLUT d = (List.range d.elevationAntennaPatternCount).map
        (fun i => AmpVal.cplx (d.elevationAntennaPattern.getD (2*i) 0)
          (d.elevationAntennaPattern.getD (2*i+1) 0)) ∧
      (get_eap_interpolator d).1.length = (get_eap_interpolator d).2.length) ∧
    (∀ i, i < (get_eap_interpolator d).1.length →
      (get_eap_interpolator d).1.getD i 0 =
        ((i : ℚ) - ((d.elevationAntennaPatternCount / 2 : ℕ) : ℚ)) *
          d.elevationAngleIncrement) := by
  have hanglen : (angleLUT d.elevationAntennaPatternCount d.elevationAngleIncrement).length =
      d.elevationAntennaPatternCount := by
    unfold angleLUT
    rw [List.length_map, List.length_range]
    omega
  refine ⟨?_, ?_, ?_⟩
  · intro hdb
    have hamp : amplitudeLUT d = d.elevationAntennaPattern.map AmpVal.db := by
      unfold amplitudeLUT
      rw [if_pos hdb]
    refine ⟨hamp, ?_⟩
    show (angleLUT _ _).length = (amplitudeLUT d).length
    rw [hanglen, hamp, List.length_map, ← hdb]
  · intro hcplx
    have hne : d.elevationAntennaPatternCount ≠ d.elevationAntennaPattern.length := by
      rw [hcplx]
      omega
    have hamp : amplitudeLUT d = (List.range d.elevationAntennaPatternCount).map
        (fun i => AmpVal.cplx (d.elevationAntennaPattern.getD (2*i) 0)
          (d.elevationAntennaPattern.getD (2*i+1) 0)) := by
      unfold amplitudeLUT
      rw [if_neg hne]
      exact zip_stride_pairs d.elevationAntennaPatternCount d.elevationAntennaPattern hcplx
    refine ⟨hamp, ?_⟩
    show (angleLUT _ _).length = (amplitudeLUT d).length
    rw [hanglen, hamp, List.length_map, List.length_range]
  · intro i hi
    have hi2 : i < (angleLUT d.elevationAntennaPatternCount d.elevationAngleIncrement).length := hi
    show (angleLUT d.elevationAntennaPatternCount d.elevationAngleIncrement).getD i 0 = _
    unfold angleLUT at hi2 ⊢
    rw [List.getD_eq_getElem _ _ hi2, List.getElem_map]
    simp [List.getElem_range]

/-- Instance for the C8 witness: an odd-count dB-case record. -/
def c8Odd : EAPData := ⟨[1, 2, 3], 3, 1⟩

theorem eap_interpolator_structure_witness :
    c8Odd.elevationAntennaPatternCount % 2 = 1 ∧
    (amplitudeLUT c8Odd = c8Odd.elevationAntennaPattern.map AmpVal.db ∧
     (get_eap_interpolator c8Odd).1.length = (get_eap_interpolator c8Odd).2.length) :=
  ⟨by decide, (eap_interpolator_structure c8Odd (by decide)).1 (by decide)⟩
